import Mathlib

/-!
Verification of the permission-policy compiler and hot-reload distributor of
gin-admin (`internal/mods/rbac/main.go`, its DAL query collaborators and the
casbin authorization middleware `pkg/middleware/casbin.go`).

The Go code is shallowly embedded: each relevant Go function becomes a Lean
function over an explicit `Store` (the relational data visible to the DAL
queries, plus failure injection for the external database), an explicit
file-system record `FS` (the generated policy file and its `.bak` sibling),
and an explicit enforcer holder (`Option Enforcer`, `none` being the value of
the `atomic.Value` before any `Store` call).  The concurrent worker pool of
`load` writes, per queue item, exactly the lines of that item in order, and
merges whole per-worker buffers; the multiset of lines in the final buffer is
therefore the multiset produced by the sequential model below, and every
statement about the buffer is made through multiplicity (`List.count`) or
membership, both invariant under the worker interleaving.
-/

/-- Menu status constant `schema.MenuStatusEnabled`. -/
def MenuStatusEnabled : String := "enabled"

/-- Role status constant `schema.RoleStatusEnabled`. -/
def RoleStatusEnabled : String := "enabled"

/-- `util.TreePathDelimiter` is the one-character string ".". -/
def TreePathDelimiterChar : Char := '.'

/-- Row of the role table (`schema.Role`), fields used by the compiler. -/
structure Role where
  id : String
  status : String
deriving DecidableEq, Repr

/-- Row of the menu table (`schema.Menu`), fields selected by
`queryRoleResources` (`id`, `parent_path`) plus the status it filters on. -/
structure Menu where
  id : String
  parentPath : String
  status : String
deriving DecidableEq, Repr

/-- Row of the role-menu link table (`schema.RoleMenu`). -/
structure RoleMenu where
  roleID : String
  menuID : String
deriving DecidableEq, Repr

/-- Row of the menu-resource table (`schema.MenuResource`). -/
structure MenuResource where
  id : String
  menuID : String
  method : String
  path : String
deriving DecidableEq, Repr

/-- The relational data seen by the DAL queries, together with failure
injection modelling errors of the external database: `roleQueryErr` makes the
role query fail, `menuQueryErrRoles` lists role ids whose menu query fails,
and `resourceQueryErrMenus` lists menu ids that poison the resource query
mentioning them. -/
structure Store where
  roles : List Role
  menus : List Menu
  roleMenus : List RoleMenu
  menuResources : List MenuResource
  roleQueryErr : Bool
  menuQueryErrRoles : List String
  resourceQueryErrMenus : List String
deriving Repr

/-- Model of Go `strings.Split` restricted to a one-character separator,
defined structurally on the character list so that it evaluates in the
kernel.  `strings.Split "m0.m1." "."` is `["m0", "m1", ""]`. -/
def splitCharAux (sep : Char) : List Char → List (List Char)
  | [] => [[]]
  | c :: rest =>
    if c == sep then [] :: splitCharAux sep rest
    else
      match splitCharAux sep rest with
      | [] => [[c]]
      | g :: gs => (c :: g) :: gs

/-- `strings.Split pp util.TreePathDelimiter` as used on parent paths. -/
def goSplitDot (s : String) : List String :=
  (splitCharAux TreePathDelimiterChar s.toList).map (fun l => String.mk l)

/-- The non-empty segments of a materialized parent path: the ancestor menu
ids named in it.  (`queryRoleResources` skips the empty segments produced by
the trailing delimiter.) -/
def parentPathIDs (pp : String) : List String :=
  if pp == "" then [] else (goSplitDot pp).filter (fun pid => !(pid == ""))

/-- `dal.Role.Query` with a status filter (`status = ?` is applied only when
the parameter is non-empty, as in the DAL).  `load` calls it with
`RoleStatusEnabled` and selects only `id`. -/
def roleDALQueryData (s : Store) (status : String) : List Role :=
  if status == "" then s.roles else s.roles.filter (fun r => r.status == status)

/-- `dal.Role.Query` including the possibility of a database error. -/
def roleDALQuery (s : Store) (status : String) : Except Unit (List Role) :=
  if s.roleQueryErr then Except.error () else Except.ok (roleDALQueryData s status)

/-- `dal.Menu.Query` filtered by `RoleID` (membership in the role-menu link
table, `id IN (select menu_id from role_menu where role_id = ?)`) and by
`Status`; each filter is applied only when its parameter is non-empty, as in
the DAL. -/
def menuDALQueryByRoleData (s : Store) (roleID status : String) : List Menu :=
  let l1 := if status == "" then s.menus
    else s.menus.filter (fun m => m.status == status)
  if roleID == "" then l1
  else l1.filter (fun m => s.roleMenus.any (fun rm => rm.roleID == roleID && rm.menuID == m.id))

/-- `dal.Menu.Query` including the possibility of a database error. -/
def menuDALQueryByRole (s : Store) (roleID status : String) : Except Unit (List Menu) :=
  if roleID ∈ s.menuQueryErrRoles then Except.error ()
  else Except.ok (menuDALQueryByRoleData s roleID status)

/-- `dal.MenuResource.Query` with the `MenuIDs` filter; as in the DAL, the
`menu_id IN ?` clause is added only when the id list is non-empty. -/
def menuResourceDALQueryData (s : Store) (menuIDs : List String) : List MenuResource :=
  if menuIDs.isEmpty then s.menuResources
  else s.menuResources.filter (fun res => menuIDs.contains res.menuID)

/-- `dal.MenuResource.Query` including the possibility of a database error. -/
def menuResourceDALQuery (s : Store) (menuIDs : List String) : Except Unit (List MenuResource) :=
  if s.resourceQueryErrMenus.any (fun x => menuIDs.contains x) then Except.error ()
  else Except.ok (menuResourceDALQueryData s menuIDs)

/-- One `menuIDs = append(menuIDs, id)` guarded by the `menuIDMapper` set:
the id is appended only if not collected yet. -/
def addMenuID (acc : List String) (x : String) : List String :=
  if x ∈ acc then acc else acc ++ [x]

/-- The inner loop of `queryRoleResources` over `strings.Split(pp, ".")`:
empty segments are skipped, the rest are added with deduplication. -/
def addParentPathIDs (acc : List String) (pp : String) : List String :=
  if pp == "" then acc
  else (goSplitDot pp).foldl (fun a pid => if pid == "" then a else addMenuID a pid) acc

/-- The body of the menu-id collection loop of `queryRoleResources` for one
menu row: a row whose id was already collected is skipped entirely
(`continue`), including its parent path. -/
def collectStep (acc : List String) (m : Menu) : List String :=
  if m.id ∈ acc then acc else addParentPathIDs (addMenuID acc m.id) m.parentPath

/-- The menu-id collection loop of `queryRoleResources`: ids of the queried
menus together with the ancestor ids named in their parent paths,
deduplicated, in first-seen order. -/
def collectMenuIDs (menus : List Menu) : List String :=
  menus.foldl collectStep []

/-- `Casbinx.queryRoleResources`: query the role's enabled linked menus,
expand the id set with the ancestors named in parent paths, and query the
menu resources of the expanded id set.  An empty menu result returns `nil`
resources without touching the resource store. -/
def queryRoleResources (s : Store) (roleID : String) : Except Unit (List MenuResource) :=
  match menuDALQueryByRole s roleID MenuStatusEnabled with
  | Except.error e => Except.error e
  | Except.ok menuData =>
    if menuData.isEmpty then Except.ok []
    else
      match menuResourceDALQuery s (collectMenuIDs menuData) with
      | Except.error e => Except.error e
      | Except.ok resData => Except.ok resData

/-- One compiled policy line, the triple carried by
`fmt.Sprintf("p, %s, %s, %s \n", item.RoleID, res.Path, res.Method)`. -/
structure PolicyLine where
  roleID : String
  path : String
  method : String
deriving DecidableEq, Repr

/-- The exact text of one policy line written into the buffer. -/
def renderPolicyLine (l : PolicyLine) : String :=
  "p, " ++ l.roleID ++ ", " ++ l.path ++ ", " ++ l.method ++ " \n"

/-- The lines a worker writes for one `policyQueueItem`, in resource order. -/
def roleLines (roleID : String) (resources : List MenuResource) : List PolicyLine :=
  resources.map (fun res => PolicyLine.mk roleID res.path res.method)

/-- The log events emitted by `load` and `autoLoad`. -/
inductive LogEvent where
  | roleQueryError (roleID : String)
  | writeFileError
  | newEnforcerError
  | cacheGetError
  | parseCacheError (val : String)
  | loadError
deriving DecidableEq, Repr

/-- The role loop of `load`: each enabled role's resources are queried; a
failure is logged and skipped (`continue`), a success enqueues the item whose
lines end up in the buffer.  The pair is (buffer lines, logged events). -/
def compileBuffer (s : Store) : List Role → List PolicyLine × List LogEvent
  | [] => ([], [])
  | r :: rest =>
    match queryRoleResources s r.id with
    | Except.error _ =>
      let p := compileBuffer s rest
      (p.1, LogEvent.roleQueryError r.id :: p.2)
    | Except.ok resources =>
      let p := compileBuffer s rest
      (roleLines r.id resources ++ p.1, p.2)

/-- One built casbin enforcer generation; `policyText` is the full content of
the policy file it was constructed from. -/
structure Enforcer where
  policyText : String
deriving DecidableEq, Repr

/-- The file-system locations touched by `load`: the generated policy file
and its `.bak` sibling; `none` means the file does not exist. -/
structure FS where
  policyFile : Option String
  bakFile : Option String
deriving DecidableEq, Repr

/-- Environment of one `load` pass: the store data plus failure injection for
`os.WriteFile` and `casbin.NewEnforcer`. -/
structure LoadEnv where
  store : Store
  writeErr : Bool
  buildErr : Bool

/-- Observable outcome of one `load` pass.  `ok` is whether `load` returned
`nil`; `stored` is whether `a.enforcer.Store(e)` executed; `enforcer` is the
value of the holder afterwards; `wroteFile` is whether `os.WriteFile`
succeeded; `renamedBak` is whether the `os.Rename` to `.bak` moved a file. -/
structure LoadResult where
  ok : Bool
  enforcer : Option Enforcer
  stored : Bool
  fs : FS
  logs : List LogEvent
  wroteFile : Bool
  renamedBak : Bool
deriving Repr

/-- The full text written to the policy file for a given buffer. -/
def renderBuffer (buf : List PolicyLine) : String :=
  String.join (buf.map renderPolicyLine)

/-- `Casbinx.load`: query the enabled roles (an error aborts; an empty result
returns success untouched); compile the buffer over all roles; with an empty
buffer skip publishing entirely; otherwise rename the existing policy file to
`.bak` (best effort), write the new file (an error aborts, logged), build the
new enforcer (an error aborts, logged) and store it in the holder. -/
def load (env : LoadEnv) (enf : Option Enforcer) (fs : FS) : LoadResult :=
  match roleDALQuery env.store RoleStatusEnabled with
  | Except.error _ => LoadResult.mk false enf false fs [] false false
  | Except.ok roles =>
    if roles.isEmpty then LoadResult.mk true enf false fs [] false false
    else
      let c := compileBuffer env.store roles
      if c.1.isEmpty then LoadResult.mk true enf false fs c.2 false false
      else
        let renamed := fs.policyFile.isSome
        let fs1 : FS :=
          match fs.policyFile with
          | some content => FS.mk none (some content)
          | none => fs
        if env.writeErr then
          LoadResult.mk false enf false fs1 (c.2 ++ [LogEvent.writeFileError]) false renamed
        else
          let text := renderBuffer c.1
          let fs2 : FS := FS.mk (some text) fs1.bakFile
          if env.buildErr then
            LoadResult.mk false enf false fs2 (c.2 ++ [LogEvent.newEnforcerError]) true renamed
          else
            LoadResult.mk true (some (Enforcer.mk text)) true fs2 c.2 true renamed

/-- `Casbinx.GetEnforcer`: a single `atomic.Value.Load`; `nil` is returned
when nothing has been stored yet, the stored generation otherwise. -/
def GetEnforcer (cell : Option Enforcer) : Option Enforcer :=
  match cell with
  | none => none
  | some e => some e

/-- Model of Go `strconv.ParseInt(val, 10, 64)`: an optional sign followed by
at least one decimal digit, rejecting any other character and any value
outside the int64 range. -/
def decDigitsToNat (l : List Char) : Nat :=
  l.foldl (fun acc c => acc * 10 + (c.toNat - 48)) 0

/-- The digits-and-sign split of `strconv.ParseInt`. -/
def parseGoInt64 (s : String) : Option Int :=
  let l := s.toList
  let signDigits : Bool × List Char :=
    match l with
    | '-' :: rest => (true, rest)
    | '+' :: rest => (false, rest)
    | _ => (false, l)
  if signDigits.2.isEmpty then none
  else if !(signDigits.2.all Char.isDigit) then none
  else
    let n : Int := decDigitsToNat signDigits.2
    let v : Int := if signDigits.1 then -n else n
    if v < -(2 ^ 63) then none
    else if v > 2 ^ 63 - 1 then none
    else some v

/-- The outcome of `Cache.Get` on the change-signal key: an error, a missing
key (`!ok`), or a present value. -/
inductive CacheGetResult where
  | err
  | missing
  | found (val : String)
deriving DecidableEq, Repr

/-- Environment of one tick of `autoLoad`: the cache read outcome together
with the `load` environment for the case a reload runs. -/
structure TickEnv where
  cache : CacheGetResult
  store : Store
  writeErr : Bool
  buildErr : Bool

/-- State carried across ticks of `autoLoad`: the local `lastUpdated`
variable, the enforcer holder and the policy-file file system. -/
structure AutoState where
  lastUpdated : Int
  enforcer : Option Enforcer
  fs : FS

/-- Observable outcome of one tick: the new state, the logged events, whether
`load` ran, whether it stored a generation, and every write or delete the
tick issued against the change-signal cache (the code issues none: `autoLoad`
only ever calls `Cache.Get`). -/
structure TickResult where
  state : AutoState
  logs : List LogEvent
  reloaded : Bool
  stored : Bool
  cacheWrites : List (String × String)

/-- One iteration of the `for range a.ticker.C` loop of `Casbinx.autoLoad`: a
cache error, a missing key or an unparsable value skips the tick unchanged;
otherwise, when the signal is strictly newer than `lastUpdated`, `load` runs,
and `lastUpdated` is advanced exactly when `load` returned `nil`. -/
def autoLoadTick (env : TickEnv) (st : AutoState) : TickResult :=
  match env.cache with
  | CacheGetResult.err => TickResult.mk st [LogEvent.cacheGetError] false false []
  | CacheGetResult.missing => TickResult.mk st [] false false []
  | CacheGetResult.found val =>
    match parseGoInt64 val with
    | none => TickResult.mk st [LogEvent.parseCacheError val] false false []
    | some updated =>
      if st.lastUpdated < updated then
        let r := load (LoadEnv.mk env.store env.writeErr env.buildErr) st.enforcer st.fs
        if r.ok then
          TickResult.mk (AutoState.mk updated r.enforcer r.fs) r.logs true r.stored []
        else
          TickResult.mk (AutoState.mk st.lastUpdated r.enforcer r.fs)
            (r.logs ++ [LogEvent.loadError]) true r.stored []
      else TickResult.mk st [] false false []

/-- A run of successive `autoLoad` ticks; the boolean records whether any
tick stored an enforcer generation. -/
def runTicks (st : AutoState) : List TickEnv → AutoState × Bool
  | [] => (st, false)
  | e :: rest =>
    let r := autoLoadTick e st
    let rec' := runTicks r.state rest
    (rec'.1, r.stored || rec'.2)

/-- Byte-prefix test `path[:len(p)] == p` used by the middleware helpers. -/
def goHasPrefixStr (s p : String) : Bool :=
  List.isPrefixOf p.toList s.toList

/-- `middleware.AllowedPathPrefixes`: an empty list allows everything,
otherwise the path must extend one of the given prefixes. -/
def allowedPathPrefixesFn (path : String) (prefixes : List String) : Bool :=
  if prefixes.isEmpty then true
  else prefixes.any (fun p => goHasPrefixStr path p)

/-- `middleware.SkippedPathPrefixes`: an empty list skips nothing, otherwise
the path is skipped when it extends one of the given prefixes. -/
def skippedPathPrefixesFn (path : String) (prefixes : List String) : Bool :=
  if prefixes.isEmpty then false
  else prefixes.any (fun p => goHasPrefixStr path p)

/-- The request data the casbin middleware reads. -/
structure Request where
  path : String
  method : String

/-- `middleware.CasbinConfig` as it bears on one request: the two path-matching
lists, the result of the optional `Skipper` on this request (`false` when the
`Skipper` is `nil`), and the subjects `GetSubjects` returns. -/
structure CasbinMwConfig where
  allowedPathPrefixes : List String
  skippedPathPrefixes : List String
  skip : Bool
  subjects : List String

/-- What the middleware does with the request: pass it on (`c.Next()`), or
answer with the permission-denied error `ErrCasbinDenied`. -/
inductive MwOutcome where
  | next
  | deniedError
deriving DecidableEq, Repr

/-- Modelled from the spec: the opaque external policy-evaluation engine.
`Enforce(sub, obj, act)` is granted exactly when the policy text the
generation was built from contains the corresponding policy line.  Only the
`nil`-enforcer branch of the middleware is the subject of a claim; this model
merely makes the non-`nil` branch total. -/
def Enforcer.enforce (e : Enforcer) (sub obj act : String) : Bool :=
  ((e.policyText.splitOn "\n").map (fun line => line ++ "\n")).contains
    (renderPolicyLine (PolicyLine.mk sub obj act))

/-- `middleware.CasbinWithConfig` applied to one request and the enforcer the
configured `GetEnforcer` returned: requests outside the allowed prefixes,
inside the skipped prefixes, or accepted by the `Skipper` pass through; a
`nil` enforcer answers `ErrCasbinDenied`; otherwise the request passes iff
some subject is granted. -/
def CasbinWithConfig (cfg : CasbinMwConfig) (enf : Option Enforcer) (req : Request) : MwOutcome :=
  if !(allowedPathPrefixesFn req.path cfg.allowedPathPrefixes)
      || skippedPathPrefixesFn req.path cfg.skippedPathPrefixes
      || cfg.skip then
    MwOutcome.next
  else
    match enf with
    | none => MwOutcome.deniedError
    | some e =>
      if cfg.subjects.any (fun sub => e.enforce sub req.path req.method) then MwOutcome.next
      else MwOutcome.deniedError

/-- The menu rows `queryRoleResources` receives for a role: the enabled menus
linked to it. -/
def linkedEnabledMenus (s : Store) (roleID : String) : List Menu :=
  menuDALQueryByRoleData s roleID MenuStatusEnabled

/-- Stated from the claim: the owning menu of a resource is an enabled menu
linked to the role, or an ancestor menu named in the parent path of such a
linked menu. -/
def claimOwningMenu (s : Store) (roleID : String) (x : String) : Prop :=
  ∃ m ∈ linkedEnabledMenus s roleID, x = m.id ∨ x ∈ parentPathIDs m.parentPath

/-- The materialized-path invariant of the data model (spec section 3): a
menu's `parent_path` lists its full ancestor chain, so the ancestors of a
menu that is itself named as an ancestor are already named alongside it. -/
def materializedPathClosed (menus : List Menu) : Prop :=
  ∀ m ∈ menus, ∀ m' ∈ menus, m'.id ∈ parentPathIDs m.parentPath →
    ∀ y ∈ parentPathIDs m'.parentPath, y ∈ parentPathIDs m.parentPath

theorem mem_addMenuID (acc : List String) (x y : String) :
    y ∈ addMenuID acc x ↔ y ∈ acc ∨ y = x := by
  unfold addMenuID
  split
  · rename_i h
    constructor
    · exact fun hy => Or.inl hy
    · rintro (hy | rfl)
      · exact hy
      · exact h
  · simp [List.mem_append]

theorem mem_segStep (acc : List String) (hd y : String) :
    y ∈ (if hd == "" then acc else addMenuID acc hd) ↔
      y ∈ acc ∨ (y = hd ∧ hd ≠ "") := by
  by_cases h : hd = ""
  · subst h
    simp
  · have hbeq : (hd == "") = false := by simpa using h
    rw [hbeq]
    simp only [Bool.false_eq_true, if_false, mem_addMenuID]
    constructor
    · rintro (ha | rfl)
      · exact Or.inl ha
      · exact Or.inr ⟨rfl, h⟩
    · rintro (ha | ⟨rfl, _⟩)
      · exact Or.inl ha
      · exact Or.inr rfl

theorem mem_foldl_addSeg (l : List String) (acc : List String) (y : String) :
    y ∈ l.foldl (fun a pid => if pid == "" then a else addMenuID a pid) acc ↔
      y ∈ acc ∨ (y ∈ l ∧ y ≠ "") := by
  induction l generalizing acc with
  | nil => simp
  | cons hd tl ih =>
    simp only [List.foldl_cons]
    rw [ih]
    constructor
    · rintro (ha | ⟨ht, hne⟩)
      · rcases (mem_segStep acc hd y).mp ha with ha' | ⟨rfl, hne⟩
        · exact Or.inl ha'
        · exact Or.inr ⟨List.mem_cons_self _ _, hne⟩
      · exact Or.inr ⟨List.mem_cons_of_mem hd ht, hne⟩
    · rintro (ha | ⟨ht, hne⟩)
      · exact Or.inl ((mem_segStep acc hd y).mpr (Or.inl ha))
      · rcases List.mem_cons.mp ht with rfl | ht'
        · exact Or.inl ((mem_segStep acc y y).mpr (Or.inr ⟨rfl, hne⟩))
        · exact Or.inr ⟨ht', hne⟩

theorem mem_parentPathIDs (pp y : String) :
    y ∈ parentPathIDs pp ↔ y ∈ goSplitDot pp ∧ y ≠ "" := by
  by_cases h : pp = ""
  · subst h
    have hp : parentPathIDs "" = [] := by decide
    have hg : goSplitDot "" = [""] := by decide
    rw [hp, hg]
    constructor
    · intro hy
      exact absurd hy (List.not_mem_nil y)
    · rintro ⟨hy, hne⟩
      exact absurd (List.mem_singleton.mp hy) hne
  · have hbeq : (pp == "") = false := by simpa using h
    unfold parentPathIDs
    rw [hbeq]
    simp [List.mem_filter]

theorem mem_addParentPathIDs (acc : List String) (pp : String) (y : String) :
    y ∈ addParentPathIDs acc pp ↔ y ∈ acc ∨ y ∈ parentPathIDs pp := by
  by_cases h : pp = ""
  · subst h
    have ha : addParentPathIDs acc "" = acc := by
      unfold addParentPathIDs
      rw [if_pos (by decide)]
    have hp : parentPathIDs "" = [] := by decide
    rw [ha, hp]
    simp
  · have hbeq : (pp == "") = false := by simpa using h
    unfold addParentPathIDs
    rw [hbeq]
    simp only [Bool.false_eq_true, if_false]
    rw [mem_foldl_addSeg, mem_parentPathIDs]

theorem subset_addParentPathIDs (acc : List String) (pp : String) :
    acc ⊆ addParentPathIDs acc pp := by
  intro y hy
  exact (mem_addParentPathIDs acc pp y).mpr (Or.inl hy)

theorem mem_collectStep (acc : List String) (m : Menu) (y : String) :
    y ∈ collectStep acc m ↔
      y ∈ acc ∨ (m.id ∉ acc ∧ (y = m.id ∨ y ∈ parentPathIDs m.parentPath)) := by
  unfold collectStep
  split
  · rename_i h
    constructor
    · exact fun hy => Or.inl hy
    · rintro (hy | ⟨hna, _⟩)
      · exact hy
      · exact absurd h hna
  · rename_i h
    rw [mem_addParentPathIDs, mem_addMenuID]
    tauto

theorem subset_collectStep (acc : List String) (m : Menu) : acc ⊆ collectStep acc m := by
  intro y hy
  exact (mem_collectStep acc m y).mpr (Or.inl hy)

theorem subset_foldl_collectStep (l : List Menu) (acc : List String) :
    acc ⊆ l.foldl collectStep acc := by
  induction l generalizing acc with
  | nil => exact fun y hy => hy
  | cons hd tl ih =>
    intro y hy
    exact ih (collectStep acc hd) (subset_collectStep acc hd hy)

theorem mem_foldl_collectStep_sound (l : List Menu) (acc : List String) (y : String) :
    y ∈ l.foldl collectStep acc →
      y ∈ acc ∨ ∃ m ∈ l, y = m.id ∨ y ∈ parentPathIDs m.parentPath := by
  induction l generalizing acc with
  | nil => exact fun hy => Or.inl hy
  | cons hd tl ih =>
    intro hy
    rcases ih (collectStep acc hd) hy with h | ⟨m, hm, hc⟩
    · rcases (mem_collectStep acc hd y).mp h with h' | ⟨_, hc⟩
      · exact Or.inl h'
      · exact Or.inr ⟨hd, List.mem_cons_self hd tl, hc⟩
    · exact Or.inr ⟨m, List.mem_cons_of_mem hd hm, hc⟩

theorem mem_foldl_collectStep_complete (l : List Menu) (acc : List String)
    (hinv : ∀ m ∈ l, m.id ∈ acc → ∀ y ∈ parentPathIDs m.parentPath, y ∈ acc)
    (hnodup : (l.map Menu.id).Nodup)
    (hclosed : ∀ m ∈ l, ∀ m' ∈ l, m'.id ∈ parentPathIDs m.parentPath →
      ∀ y ∈ parentPathIDs m'.parentPath, y ∈ parentPathIDs m.parentPath) :
    ∀ m ∈ l, m.id ∈ l.foldl collectStep acc ∧
      ∀ y ∈ parentPathIDs m.parentPath, y ∈ l.foldl collectStep acc := by
  induction l generalizing acc with
  | nil => intro m hm; exact absurd hm (List.not_mem_nil m)
  | cons hd tl ih =>
    have hstep : ∀ y, y ∈ collectStep acc hd ↔
        y ∈ acc ∨ (hd.id ∉ acc ∧ (y = hd.id ∨ y ∈ parentPathIDs hd.parentPath)) :=
      fun y => mem_collectStep acc hd y
    have hhd_id : hd.id ∈ collectStep acc hd := by
      by_cases h : hd.id ∈ acc
      · exact (hstep hd.id).mpr (Or.inl h)
      · exact (hstep hd.id).mpr (Or.inr ⟨h, Or.inl rfl⟩)
    have hhd_pp : ∀ y ∈ parentPathIDs hd.parentPath, y ∈ collectStep acc hd := by
      intro y hy
      by_cases h : hd.id ∈ acc
      · exact (hstep y).mpr (Or.inl (hinv hd (List.mem_cons_self hd tl) h y hy))
      · exact (hstep y).mpr (Or.inr ⟨h, Or.inr hy⟩)
    have hnodup' : hd.id ∉ tl.map Menu.id ∧ (tl.map Menu.id).Nodup := by
      rw [List.map_cons, List.nodup_cons] at hnodup
      exact hnodup
    have hclosed_tl : ∀ m ∈ tl, ∀ m' ∈ tl, m'.id ∈ parentPathIDs m.parentPath →
        ∀ y ∈ parentPathIDs m'.parentPath, y ∈ parentPathIDs m.parentPath := by
      intro m hm m' hm'
      exact hclosed m (List.mem_cons_of_mem hd hm) m' (List.mem_cons_of_mem hd hm')
    have hinv_tl : ∀ m ∈ tl, m.id ∈ collectStep acc hd →
        ∀ y ∈ parentPathIDs m.parentPath, y ∈ collectStep acc hd := by
      intro m hm hmid y hy
      rcases (hstep m.id).mp hmid with h | ⟨hna, h | h⟩
      · exact (hstep y).mpr (Or.inl (hinv m (List.mem_cons_of_mem hd hm) h y hy))
      · exact absurd (by rw [← h]; exact List.mem_map_of_mem Menu.id hm) hnodup'.1
      · have := hclosed hd (List.mem_cons_self hd tl) m (List.mem_cons_of_mem hd hm) h y hy
        exact hhd_pp y this
    intro m hm
    rcases List.mem_cons.mp hm with rfl | hm'
    · exact ⟨subset_foldl_collectStep tl (collectStep acc m) hhd_id,
        fun y hy => subset_foldl_collectStep tl (collectStep acc m) (hhd_pp y hy)⟩
    · exact ih (collectStep acc hd) hinv_tl hnodup'.2 hclosed_tl m hm'

theorem mem_collectMenuIDs_iff (menus : List Menu)
    (hnodup : (menus.map Menu.id).Nodup)
    (hclosed : materializedPathClosed menus) (y : String) :
    y ∈ collectMenuIDs menus ↔
      ∃ m ∈ menus, y = m.id ∨ y ∈ parentPathIDs m.parentPath := by
  unfold collectMenuIDs
  constructor
  · intro hy
    rcases mem_foldl_collectStep_sound menus [] y hy with h | h
    · exact absurd h (List.not_mem_nil y)
    · exact h
  · rintro ⟨m, hm, rfl | hy⟩
    · exact (mem_foldl_collectStep_complete menus []
        (fun m _ h => absurd h (List.not_mem_nil m.id)) hnodup hclosed m hm).1
    · exact (mem_foldl_collectStep_complete menus []
        (fun m _ h => absurd h (List.not_mem_nil m.id)) hnodup hclosed m hm).2 y hy

theorem nodup_addMenuID (acc : List String) (x : String) (h : acc.Nodup) :
    (addMenuID acc x).Nodup := by
  unfold addMenuID
  split
  · exact h
  · rename_i hx
    rw [List.nodup_append]
    refine ⟨h, List.nodup_singleton x, ?_⟩
    intro y hy hmem
    rw [List.mem_singleton] at hmem
    subst hmem
    exact hx hy

theorem nodup_foldl_addSeg (l : List String) (acc : List String) (h : acc.Nodup) :
    (l.foldl (fun a pid => if pid == "" then a else addMenuID a pid) acc).Nodup := by
  induction l generalizing acc with
  | nil => exact h
  | cons hd tl ih =>
    simp only [List.foldl_cons]
    apply ih
    split
    · exact h
    · exact nodup_addMenuID acc hd h

theorem nodup_addParentPathIDs (acc : List String) (pp : String) (h : acc.Nodup) :
    (addParentPathIDs acc pp).Nodup := by
  unfold addParentPathIDs
  split
  · exact h
  · exact nodup_foldl_addSeg (goSplitDot pp) acc h

theorem nodup_collectStep (acc : List String) (m : Menu) (h : acc.Nodup) :
    (collectStep acc m).Nodup := by
  unfold collectStep
  split
  · exact h
  · exact nodup_addParentPathIDs _ m.parentPath (nodup_addMenuID acc m.id h)

theorem nodup_foldl_collectStep (l : List Menu) (acc : List String) (h : acc.Nodup) :
    (l.foldl collectStep acc).Nodup := by
  induction l generalizing acc with
  | nil => exact h
  | cons hd tl ih =>
    simp only [List.foldl_cons]
    exact ih (collectStep acc hd) (nodup_collectStep acc hd h)

theorem nodup_collectMenuIDs (menus : List Menu) : (collectMenuIDs menus).Nodup :=
  nodup_foldl_collectStep menus [] List.nodup_nil

theorem collectMenuIDs_ne_nil (menus : List Menu) (h : menus ≠ []) :
    collectMenuIDs menus ≠ [] := by
  match menus with
  | [] => exact absurd rfl h
  | m :: tl =>
    have h1 : m.id ∈ collectStep [] m :=
      (mem_collectStep [] m m.id).mpr (Or.inr ⟨List.not_mem_nil m.id, Or.inl rfl⟩)
    have h2 : m.id ∈ collectMenuIDs (m :: tl) :=
      subset_foldl_collectStep tl (collectStep [] m) h1
    exact List.ne_nil_of_mem h2

theorem contains_iff_mem (l : List String) (a : String) : l.contains a = true ↔ a ∈ l := by
  simp [List.contains]

theorem queryRoleResources_eq (s : Store) (roleID : String)
    (h : roleID ∉ s.menuQueryErrRoles) :
    queryRoleResources s roleID =
      (if (menuDALQueryByRoleData s roleID MenuStatusEnabled).isEmpty then Except.ok []
       else menuResourceDALQuery s
         (collectMenuIDs (menuDALQueryByRoleData s roleID MenuStatusEnabled))) := by
  unfold queryRoleResources menuDALQueryByRole
  rw [if_neg h]
  by_cases hemp : (menuDALQueryByRoleData s roleID MenuStatusEnabled).isEmpty
  · simp [hemp]
  · cases hq : menuResourceDALQuery s
        (collectMenuIDs (menuDALQueryByRoleData s roleID MenuStatusEnabled)) <;>
      simp [hemp, hq]

/-- **C1.** For every enabled role, when every store query succeeds, the
aggregated resource set compiled by `queryRoleResources` is exactly the set
of `MenuResource` rows whose owning menu is either an enabled menu linked to
the role or an ancestor menu named in the parent path of such a linked menu,
with the expanded menu-id set deduplicated by id; in particular a role linked
only to a descendant menu receives every resource of each ancestor menu in
its parent chain.  The two hypotheses are the database invariants of the data
model: menu ids are unique (primary key), and `parent_path` is the full
materialized ancestor chain. -/
theorem queryRoleResources_spec (s : Store) (roleID : String) (rs : List MenuResource)
    (hnodup : ((linkedEnabledMenus s roleID).map Menu.id).Nodup)
    (hclosed : materializedPathClosed (linkedEnabledMenus s roleID))
    (hok : queryRoleResources s roleID = Except.ok rs) :
    (∀ res, res ∈ rs ↔ res ∈ s.menuResources ∧ claimOwningMenu s roleID res.menuID)
      ∧ (collectMenuIDs (linkedEnabledMenus s roleID)).Nodup := by
  by_cases herr : roleID ∈ s.menuQueryErrRoles
  · have h1 : queryRoleResources s roleID = Except.error () := by
      unfold queryRoleResources menuDALQueryByRole
      rw [if_pos herr]
    rw [h1] at hok
    cases hok
  · rw [queryRoleResources_eq s roleID herr] at hok
    by_cases hemp : (menuDALQueryByRoleData s roleID MenuStatusEnabled).isEmpty
    · rw [if_pos hemp] at hok
      have hrs : rs = [] := by
        cases hok
        rfl
      subst hrs
      have hnil : menuDALQueryByRoleData s roleID MenuStatusEnabled = [] :=
        List.isEmpty_iff.mp hemp
      constructor
      · intro res
        constructor
        · intro hres
          exact absurd hres (List.not_mem_nil res)
        · rintro ⟨_, m, hm, _⟩
          unfold linkedEnabledMenus at hm
          rw [hnil] at hm
          exact absurd hm (List.not_mem_nil m)
      · exact nodup_collectMenuIDs _
    · rw [if_neg hemp] at hok
      unfold menuResourceDALQuery at hok
      by_cases hpois : s.resourceQueryErrMenus.any
          (fun x => (collectMenuIDs (menuDALQueryByRoleData s roleID MenuStatusEnabled)).contains x)
      · rw [if_pos hpois] at hok
        cases hok
      · rw [if_neg hpois] at hok
        have hrs : rs = menuResourceDALQueryData s
            (collectMenuIDs (menuDALQueryByRoleData s roleID MenuStatusEnabled)) := by
          cases hok
          rfl
        subst hrs
        have hmenus_ne : menuDALQueryByRoleData s roleID MenuStatusEnabled ≠ [] := by
          intro hc
          rw [hc] at hemp
          exact hemp rfl
        have hne : collectMenuIDs (menuDALQueryByRoleData s roleID MenuStatusEnabled) ≠ [] :=
          collectMenuIDs_ne_nil _ hmenus_ne
        have hne' :
            (collectMenuIDs (menuDALQueryByRoleData s roleID MenuStatusEnabled)).isEmpty
              = false := by
          cases hcoll : (collectMenuIDs (menuDALQueryByRoleData s roleID MenuStatusEnabled)).isEmpty
          · rfl
          · exact absurd (List.isEmpty_iff.mp hcoll) hne
        have hcm : ∀ y, y ∈ collectMenuIDs (menuDALQueryByRoleData s roleID MenuStatusEnabled)
            ↔ claimOwningMenu s roleID y := by
          intro y
          rw [mem_collectMenuIDs_iff (menuDALQueryByRoleData s roleID MenuStatusEnabled)
            hnodup hclosed]
          unfold claimOwningMenu linkedEnabledMenus
          constructor
          · rintro ⟨m, hm, hy⟩
            exact ⟨m, hm, hy⟩
          · rintro ⟨m, hm, hy⟩
            exact ⟨m, hm, hy⟩
        constructor
        · intro res
          unfold menuResourceDALQueryData
          rw [hne']
          simp only [Bool.false_eq_true, if_false]
          rw [List.mem_filter]
          constructor
          · rintro ⟨hmr, hc⟩
            exact ⟨hmr, (hcm res.menuID).mp ((contains_iff_mem _ _).mp hc)⟩
          · rintro ⟨hmr, hcl⟩
            exact ⟨hmr, (contains_iff_mem _ _).mpr ((hcm res.menuID).mpr hcl)⟩
        · exact nodup_collectMenuIDs _

/-- Concrete store for the C1 witness: the spec's `exporter` scenario — the
role is linked only to the descendant menu `m2`, whose parent path names the
ancestor `m1`; the resources of both `m1` and `m2` must be aggregated. -/
def c1Store : Store :=
  Store.mk [Role.mk "exporter" "enabled"]
    [Menu.mk "m1" "" "enabled", Menu.mk "m2" "m1." "enabled"]
    [RoleMenu.mk "exporter" "m2"]
    [MenuResource.mk "r1" "m1" "GET" "/api/v1/orders",
     MenuResource.mk "r2" "m2" "GET" "/api/v1/orders/export"]
    false [] []

/-- Witness for C1: the theorem applied to `c1Store` and role `exporter`,
each hypothesis discharged by evaluation. -/
theorem queryRoleResources_spec_witness :
    (((linkedEnabledMenus c1Store "exporter").map Menu.id).Nodup
        ∧ materializedPathClosed (linkedEnabledMenus c1Store "exporter")
        ∧ queryRoleResources c1Store "exporter" =
            Except.ok [MenuResource.mk "r1" "m1" "GET" "/api/v1/orders",
              MenuResource.mk "r2" "m2" "GET" "/api/v1/orders/export"])
      ∧ ((∀ res, res ∈ [MenuResource.mk "r1" "m1" "GET" "/api/v1/orders",
            MenuResource.mk "r2" "m2" "GET" "/api/v1/orders/export"] ↔
              res ∈ c1Store.menuResources ∧ claimOwningMenu c1Store "exporter" res.menuID)
          ∧ (collectMenuIDs (linkedEnabledMenus c1Store "exporter")).Nodup) :=
  ⟨⟨by decide, by unfold materializedPathClosed; decide, by rfl⟩,
    queryRoleResources_spec c1Store "exporter"
      [MenuResource.mk "r1" "m1" "GET" "/api/v1/orders",
        MenuResource.mk "r2" "m2" "GET" "/api/v1/orders/export"]
      (by decide) (by unfold materializedPathClosed; decide) (by rfl)⟩

theorem mem_roleLines (rid : String) (rs : List MenuResource) (line : PolicyLine) :
    line ∈ roleLines rid rs ↔
      ∃ res ∈ rs, line = PolicyLine.mk rid res.path res.method := by
  unfold roleLines
  rw [List.mem_map]
  constructor
  · rintro ⟨res, hres, rfl⟩
    exact ⟨res, hres, rfl⟩
  · rintro ⟨res, hres, rfl⟩
    exact ⟨res, hres, rfl⟩

theorem roleID_of_mem_roleLines (rid : String) (rs : List MenuResource) (line : PolicyLine)
    (h : line ∈ roleLines rid rs) : line.roleID = rid := by
  rcases (mem_roleLines rid rs line).mp h with ⟨res, _, rfl⟩
  rfl

theorem count_roleLines (rid : String) (rs : List MenuResource) (line : PolicyLine) :
    (roleLines rid rs).count line =
      if line.roleID = rid then
        rs.countP (fun res => res.path == line.path && res.method == line.method)
      else 0 := by
  induction rs with
  | nil =>
    simp [roleLines]
  | cons res rest ih =>
    unfold roleLines at ih ⊢
    rw [List.map_cons, List.count_cons, ih, List.countP_cons]
    by_cases hid : line.roleID = rid
    · rw [if_pos hid, if_pos hid]
      by_cases hpm : (res.path == line.path && res.method == line.method) = true
      · rw [if_pos hpm]
        have hline : (PolicyLine.mk rid res.path res.method == line) = true := by
          have h1 : res.path = line.path := by
            have := hpm
            simp only [Bool.and_eq_true, beq_iff_eq] at this
            exact this.1
          have h2 : res.method = line.method := by
            have := hpm
            simp only [Bool.and_eq_true, beq_iff_eq] at this
            exact this.2
          have : PolicyLine.mk rid res.path res.method = line := by
            cases line
            simp only [PolicyLine.mk.injEq]
            exact ⟨hid.symm, h1, h2⟩
          simp [this]
        rw [hline]
        simp
      · rw [if_neg hpm]
        have hline : (PolicyLine.mk rid res.path res.method == line) = false := by
          by_contra hc
          have : (PolicyLine.mk rid res.path res.method == line) = true := by
            cases hb : (PolicyLine.mk rid res.path res.method == line)
            · exact absurd hb hc
            · rfl
          have heq : PolicyLine.mk rid res.path res.method = line := by
            exact beq_iff_eq.mp this
          apply hpm
          rw [← heq]
          simp
        rw [hline]
        simp
    · rw [if_neg hid, if_neg hid]
      have hline : (PolicyLine.mk rid res.path res.method == line) = false := by
        by_contra hc
        have : (PolicyLine.mk rid res.path res.method == line) = true := by
          cases hb : (PolicyLine.mk rid res.path res.method == line)
          · exact absurd hb hc
          · rfl
        have heq : PolicyLine.mk rid res.path res.method = line := beq_iff_eq.mp this
        apply hid
        rw [← heq]
      rw [hline]
      simp

theorem mem_compileBuffer (s : Store) (roles : List Role) (line : PolicyLine) :
    line ∈ (compileBuffer s roles).1 ↔
      ∃ r ∈ roles, ∃ rs, queryRoleResources s r.id = Except.ok rs
        ∧ line ∈ roleLines r.id rs := by
  induction roles with
  | nil =>
    simp [compileBuffer]
  | cons hd tl ih =>
    unfold compileBuffer
    cases hq : queryRoleResources s hd.id with
    | error e =>
      simp only []
      rw [ih]
      constructor
      · rintro ⟨r, hr, rs, hok, hl⟩
        exact ⟨r, List.mem_cons_of_mem hd hr, rs, hok, hl⟩
      · rintro ⟨r, hr, rs, hok, hl⟩
        rcases List.mem_cons.mp hr with rfl | hr'
        · rw [hq] at hok
          cases hok
        · exact ⟨r, hr', rs, hok, hl⟩
    | ok resources =>
      simp only [List.mem_append]
      rw [ih]
      constructor
      · rintro (hl | ⟨r, hr, rs, hok, hl⟩)
        · exact ⟨hd, List.mem_cons_self hd tl, resources, hq, hl⟩
        · exact ⟨r, List.mem_cons_of_mem hd hr, rs, hok, hl⟩
      · rintro ⟨r, hr, rs, hok, hl⟩
        rcases List.mem_cons.mp hr with rfl | hr'
        · rw [hq] at hok
          cases hok
          exact Or.inl hl
        · exact Or.inr ⟨r, hr', rs, hok, hl⟩

theorem count_compileBuffer_zero (s : Store) (roles : List Role) (line : PolicyLine)
    (h : ∀ r ∈ roles, line.roleID ≠ r.id) :
    (compileBuffer s roles).1.count line = 0 := by
  induction roles with
  | nil => simp [compileBuffer]
  | cons hd tl ih =>
    unfold compileBuffer
    cases hq : queryRoleResources s hd.id with
    | error e =>
      exact ih (fun r hr => h r (List.mem_cons_of_mem hd hr))
    | ok resources =>
      simp only [List.count_append]
      rw [count_roleLines, if_neg (h hd (List.mem_cons_self hd tl)),
        ih (fun r hr => h r (List.mem_cons_of_mem hd hr))]

theorem count_compileBuffer (s : Store) (roles : List Role) (r : Role)
    (rs : List MenuResource) (p m : String)
    (hnodup : (roles.map Role.id).Nodup) (hr : r ∈ roles)
    (hok : queryRoleResources s r.id = Except.ok rs) :
    (compileBuffer s roles).1.count (PolicyLine.mk r.id p m) =
      rs.countP (fun res => res.path == p && res.method == m) := by
  induction roles with
  | nil => cases hr
  | cons hd tl ih =>
    have hnodup' : hd.id ∉ tl.map Role.id ∧ (tl.map Role.id).Nodup := by
      rw [List.map_cons, List.nodup_cons] at hnodup
      exact hnodup
    rcases List.mem_cons.mp hr with rfl | hr'
    · unfold compileBuffer
      rw [hok]
      simp only [List.count_append]
      rw [count_roleLines, if_pos rfl]
      have hzero : (compileBuffer s tl).1.count (PolicyLine.mk r.id p m) = 0 := by
        apply count_compileBuffer_zero
        intro r' hrx hc
        have hc' : r.id = r'.id := hc
        exact hnodup'.1 (by rw [hc']; exact List.mem_map_of_mem Role.id hrx)
      rw [hzero]
      exact Nat.add_zero _
    · unfold compileBuffer
      cases hq : queryRoleResources s hd.id with
      | error e =>
        exact ih hnodup'.2 hr'
      | ok resources =>
        simp only [List.count_append]
        have hne : r.id ≠ hd.id := by
          intro hc
          exact hnodup'.1 (by rw [← hc]; exact List.mem_map_of_mem Role.id hr')
        have hne2 : (PolicyLine.mk r.id p m).roleID ≠ hd.id := hne
        rw [count_roleLines, if_neg hne2, ih hnodup'.2 hr']
        exact Nat.zero_add _

theorem mem_compileBuffer_logs (s : Store) (roles : List Role) (x : String) :
    LogEvent.roleQueryError x ∈ (compileBuffer s roles).2 ↔
      ∃ r ∈ roles, r.id = x ∧ queryRoleResources s r.id = Except.error () := by
  induction roles with
  | nil => simp [compileBuffer]
  | cons hd tl ih =>
    unfold compileBuffer
    cases hq : queryRoleResources s hd.id with
    | error e =>
      cases e
      simp only [List.mem_cons]
      rw [ih]
      constructor
      · rintro (heq | ⟨r, hr, hx, herr⟩)
        · injection heq with h
          subst h
          exact ⟨hd, Or.inl rfl, rfl, hq⟩
        · exact ⟨r, Or.inr hr, hx, herr⟩
      · rintro ⟨r, (rfl | hr'), hx, herr⟩
        · exact Or.inl (by rw [hx])
        · exact Or.inr ⟨r, hr', hx, herr⟩
    | ok resources =>
      simp only []
      rw [ih]
      constructor
      · rintro ⟨r, hr, hx, herr⟩
        exact ⟨r, List.mem_cons_of_mem hd hr, hx, herr⟩
      · rintro ⟨r, hr, hx, herr⟩
        rcases List.mem_cons.mp hr with rfl | hr'
        · rw [hq] at herr
          cases herr
        · exact ⟨r, hr', hx, herr⟩

/-- Concrete store refuting the per-(method, path) deduplication of C2: role
`r1` is linked to two enabled menus whose resource rows share the same
(method, path) pair. -/
def c2Store : Store :=
  Store.mk [Role.mk "r1" "enabled"]
    [Menu.mk "m1" "" "enabled", Menu.mk "m2" "" "enabled"]
    [RoleMenu.mk "r1" "m1", RoleMenu.mk "r1" "m2"]
    [MenuResource.mk "res1" "m1" "GET" "/x", MenuResource.mk "res2" "m2" "GET" "/x"]
    false [] []

/-- **C2 counterexample.** The claim demands exactly one `p, r1, /x, GET`
line for the single distinct (GET, /x) pair of role `r1`'s aggregated set,
but the code emits one line per resource row and the buffer holds the line
twice: the buffer is literally the same line repeated. -/
theorem compileBuffer_no_dedup_counterexample :
    queryRoleResources c2Store "r1" =
        Except.ok [MenuResource.mk "res1" "m1" "GET" "/x",
          MenuResource.mk "res2" "m2" "GET" "/x"]
      ∧ (compileBuffer c2Store (roleDALQueryData c2Store RoleStatusEnabled)).1 =
          [PolicyLine.mk "r1" "/x" "GET", PolicyLine.mk "r1" "/x" "GET"]
      ∧ (compileBuffer c2Store (roleDALQueryData c2Store RoleStatusEnabled)).1.count
          (PolicyLine.mk "r1" "/x" "GET") ≠ 1 :=
  ⟨by rfl, by rfl, by decide⟩

/-- **C2 amended.** For every reload pass over fixed store data, the
compiled buffer contains, for each enabled role whose resource query
succeeds, one `p, <roleID>, <path>, <method>` line per aggregated resource
*row* — the multiplicity of a line is the number of rows sharing its
(method, path), with no deduplication by (method, path) — and no other
lines: every buffer line arises from some enabled role's aggregated rows.
Role ids are assumed unique (primary key). -/
theorem compileBuffer_lines_spec (s : Store) (r : Role) (rs : List MenuResource)
    (p m : String)
    (hnodup : ((roleDALQueryData s RoleStatusEnabled).map Role.id).Nodup)
    (hr : r ∈ roleDALQueryData s RoleStatusEnabled)
    (hok : queryRoleResources s r.id = Except.ok rs) :
    ((compileBuffer s (roleDALQueryData s RoleStatusEnabled)).1.count
        (PolicyLine.mk r.id p m)
      = rs.countP (fun res => res.path == p && res.method == m))
    ∧ ∀ line ∈ (compileBuffer s (roleDALQueryData s RoleStatusEnabled)).1,
        ∃ r' ∈ roleDALQueryData s RoleStatusEnabled, ∃ rs',
          queryRoleResources s r'.id = Except.ok rs'
            ∧ ∃ res ∈ rs', line = PolicyLine.mk r'.id res.path res.method := by
  constructor
  · exact count_compileBuffer s (roleDALQueryData s RoleStatusEnabled) r rs p m hnodup hr hok
  · intro line hline
    rcases (mem_compileBuffer s (roleDALQueryData s RoleStatusEnabled) line).mp hline
      with ⟨r', hr', rs', hok', hl⟩
    exact ⟨r', hr', rs', hok', (mem_roleLines r'.id rs' line).mp hl⟩

/-- Witness for the amended C2: at `c2Store`, role `r1`'s line has
multiplicity 2, the number of aggregated rows with (GET, /x). -/
theorem compileBuffer_lines_spec_witness :
    (((roleDALQueryData c2Store RoleStatusEnabled).map Role.id).Nodup
        ∧ Role.mk "r1" "enabled" ∈ roleDALQueryData c2Store RoleStatusEnabled
        ∧ queryRoleResources c2Store "r1" =
            Except.ok [MenuResource.mk "res1" "m1" "GET" "/x",
              MenuResource.mk "res2" "m2" "GET" "/x"])
      ∧ (((compileBuffer c2Store (roleDALQueryData c2Store RoleStatusEnabled)).1.count
            (PolicyLine.mk "r1" "/x" "GET")
          = List.countP (fun res => res.path == "/x" && res.method == "GET")
              [MenuResource.mk "res1" "m1" "GET" "/x",
                MenuResource.mk "res2" "m2" "GET" "/x"])
        ∧ ∀ line ∈ (compileBuffer c2Store (roleDALQueryData c2Store RoleStatusEnabled)).1,
            ∃ r' ∈ roleDALQueryData c2Store RoleStatusEnabled, ∃ rs',
              queryRoleResources c2Store r'.id = Except.ok rs'
                ∧ ∃ res ∈ rs', line = PolicyLine.mk r'.id res.path res.method) :=
  ⟨⟨by decide, by decide, by rfl⟩,
    compileBuffer_lines_spec c2Store (Role.mk "r1" "enabled")
      [MenuResource.mk "res1" "m1" "GET" "/x", MenuResource.mk "res2" "m2" "GET" "/x"]
      "/x" "GET" (by decide) (by decide) (by rfl)⟩

theorem GetEnforcer_eq (cell : Option Enforcer) : GetEnforcer cell = cell := by
  unfold GetEnforcer
  cases cell <;> rfl

/-- **C5.** A reload pass whose compiled buffer is empty writes no file,
renames nothing, and completes successfully without replacing the current
enforcer generation: `GetEnforcer` afterwards returns the same generation. -/
theorem load_empty_buffer_no_publish (env : LoadEnv) (enf : Option Enforcer) (fs : FS)
    (hq : env.store.roleQueryErr = false)
    (hbuf : (compileBuffer env.store (roleDALQueryData env.store RoleStatusEnabled)).1 = []) :
    (load env enf fs).ok = true
    ∧ (load env enf fs).wroteFile = false
    ∧ (load env enf fs).renamedBak = false
    ∧ (load env enf fs).fs = fs
    ∧ (load env enf fs).stored = false
    ∧ GetEnforcer (load env enf fs).enforcer = GetEnforcer enf := by
  rw [GetEnforcer_eq, GetEnforcer_eq]
  by_cases hroles : (roleDALQueryData env.store RoleStatusEnabled).isEmpty
  · simp [load, roleDALQuery, hq, hroles]
  · simp [load, roleDALQuery, hq, hroles, hbuf]

/-- **C6.** A reload pass in which the policy-file write fails or enforcer
construction fails returns that error, logs it, and does not update the
enforcer handle: `GetEnforcer` afterwards returns the previous generation. -/
theorem load_publish_error_keeps_generation (env : LoadEnv) (enf : Option Enforcer) (fs : FS)
    (hq : env.store.roleQueryErr = false)
    (hbuf : (compileBuffer env.store (roleDALQueryData env.store RoleStatusEnabled)).1 ≠ [])
    (herr : env.writeErr = true ∨ env.buildErr = true) :
    (load env enf fs).ok = false
    ∧ (load env enf fs).stored = false
    ∧ GetEnforcer (load env enf fs).enforcer = GetEnforcer enf
    ∧ (env.writeErr = true → LogEvent.writeFileError ∈ (load env enf fs).logs)
    ∧ (env.writeErr = false → env.buildErr = true →
        LogEvent.newEnforcerError ∈ (load env enf fs).logs) := by
  rw [GetEnforcer_eq, GetEnforcer_eq]
  by_cases hroles : (roleDALQueryData env.store RoleStatusEnabled).isEmpty
  · exact absurd (by rw [List.isEmpty_iff.mp hroles]; rfl) hbuf
  · have hbuf' :
        (compileBuffer env.store (roleDALQueryData env.store RoleStatusEnabled)).1.isEmpty
          = false := by
      cases hc : (compileBuffer env.store (roleDALQueryData env.store RoleStatusEnabled)).1.isEmpty
      · rfl
      · exact absurd (List.isEmpty_iff.mp hc) hbuf
    by_cases hw : env.writeErr
    · simp [load, roleDALQuery, hq, hroles, hbuf', hw]
    · have hb : env.buildErr = true := by
        rcases herr with h | h
        · exact absurd h hw
        · exact h
      simp [load, roleDALQuery, hq, hroles, hbuf', hw, hb]

/-- **C10.** In a pass with a non-empty buffer, the existing policy file is
moved to its `.bak` name before the write; if the write then fails, no active
policy file remains at the configured path — the previous content survives
only under the `.bak` name — while the in-memory generation is retained. -/
theorem load_write_fail_leaves_no_active_file (env : LoadEnv) (enf : Option Enforcer)
    (fs : FS) (c : String)
    (hq : env.store.roleQueryErr = false)
    (hbuf : (compileBuffer env.store (roleDALQueryData env.store RoleStatusEnabled)).1 ≠ [])
    (hfile : fs.policyFile = some c)
    (hw : env.writeErr = true) :
    (load env enf fs).renamedBak = true
    ∧ (load env enf fs).fs.policyFile = none
    ∧ (load env enf fs).fs.bakFile = some c
    ∧ (load env enf fs).wroteFile = false
    ∧ (load env enf fs).ok = false
    ∧ GetEnforcer (load env enf fs).enforcer = GetEnforcer enf := by
  rw [GetEnforcer_eq, GetEnforcer_eq]
  by_cases hroles : (roleDALQueryData env.store RoleStatusEnabled).isEmpty
  · exact absurd (by rw [List.isEmpty_iff.mp hroles]; rfl) hbuf
  · have hbuf' :
        (compileBuffer env.store (roleDALQueryData env.store RoleStatusEnabled)).1.isEmpty
          = false := by
      cases hc : (compileBuffer env.store (roleDALQueryData env.store RoleStatusEnabled)).1.isEmpty
      · rfl
      · exact absurd (List.isEmpty_iff.mp hc) hbuf
    simp [load, roleDALQuery, hq, hroles, hbuf', hw, hfile]

/-- Store with one enabled role linked to no menu: the pass compiles an
empty buffer. -/
def c5Store : Store :=
  Store.mk [Role.mk "r1" "enabled"] [] [] [] false [] []

/-- A previously stored generation, for witnesses. -/
def oldEnf : Option Enforcer := some (Enforcer.mk "oldpolicy")

/-- A file system holding a previously published policy file. -/
def oldFS : FS := FS.mk (some "oldpolicy") none

/-- Load environment over `c5Store` with no publish errors. -/
def c5Env : LoadEnv := LoadEnv.mk c5Store false false

/-- Witness for C5: at `c5Env` the buffer is empty and the pass leaves
file system and generation untouched. -/
theorem load_empty_buffer_no_publish_witness :
    (c5Env.store.roleQueryErr = false
        ∧ (compileBuffer c5Env.store (roleDALQueryData c5Env.store RoleStatusEnabled)).1 = [])
      ∧ ((load c5Env oldEnf oldFS).ok = true
        ∧ (load c5Env oldEnf oldFS).wroteFile = false
        ∧ (load c5Env oldEnf oldFS).renamedBak = false
        ∧ (load c5Env oldEnf oldFS).fs = oldFS
        ∧ (load c5Env oldEnf oldFS).stored = false
        ∧ GetEnforcer (load c5Env oldEnf oldFS).enforcer = GetEnforcer oldEnf) :=
  ⟨⟨rfl, rfl⟩, load_empty_buffer_no_publish c5Env oldEnf oldFS rfl rfl⟩

/-- Load environment over `c2Store` whose file write fails. -/
def c6Env : LoadEnv := LoadEnv.mk c2Store true false

/-- Witness for C6: at `c6Env` the write fails, the pass returns the error,
logs it, and the generation is retained. -/
theorem load_publish_error_keeps_generation_witness :
    (c6Env.store.roleQueryErr = false
        ∧ (compileBuffer c6Env.store (roleDALQueryData c6Env.store RoleStatusEnabled)).1 ≠ []
        ∧ (c6Env.writeErr = true ∨ c6Env.buildErr = true))
      ∧ ((load c6Env oldEnf oldFS).ok = false
        ∧ (load c6Env oldEnf oldFS).stored = false
        ∧ GetEnforcer (load c6Env oldEnf oldFS).enforcer = GetEnforcer oldEnf
        ∧ (c6Env.writeErr = true →
            LogEvent.writeFileError ∈ (load c6Env oldEnf oldFS).logs)
        ∧ (c6Env.writeErr = false → c6Env.buildErr = true →
            LogEvent.newEnforcerError ∈ (load c6Env oldEnf oldFS).logs)) :=
  ⟨⟨rfl, by decide, Or.inl rfl⟩,
    load_publish_error_keeps_generation c6Env oldEnf oldFS rfl (by decide) (Or.inl rfl)⟩

/-- Witness for C10: at `c6Env` with an existing policy file, the failed
write leaves only the `.bak` file behind. -/
theorem load_write_fail_leaves_no_active_file_witness :
    (c6Env.store.roleQueryErr = false
        ∧ (compileBuffer c6Env.store (roleDALQueryData c6Env.store RoleStatusEnabled)).1 ≠ []
        ∧ oldFS.policyFile = some "oldpolicy"
        ∧ c6Env.writeErr = true)
      ∧ ((load c6Env oldEnf oldFS).renamedBak = true
        ∧ (load c6Env oldEnf oldFS).fs.policyFile = none
        ∧ (load c6Env oldEnf oldFS).fs.bakFile = some "oldpolicy"
        ∧ (load c6Env oldEnf oldFS).wroteFile = false
        ∧ (load c6Env oldEnf oldFS).ok = false
        ∧ GetEnforcer (load c6Env oldEnf oldFS).enforcer = GetEnforcer oldEnf) :=
  ⟨⟨rfl, by decide, rfl, rfl⟩,
    load_write_fail_leaves_no_active_file c6Env oldEnf oldFS "oldpolicy"
      rfl (by decide) rfl rfl⟩

theorem load_ok_of_no_errors (env : LoadEnv) (enf : Option Enforcer) (fs : FS)
    (hq : env.store.roleQueryErr = false) (hw : env.writeErr = false)
    (hb : env.buildErr = false) :
    (load env enf fs).ok = true := by
  by_cases hroles : (roleDALQueryData env.store RoleStatusEnabled).isEmpty
  · simp [load, roleDALQuery, hq, hroles]
  · by_cases hbuf :
        (compileBuffer env.store (roleDALQueryData env.store RoleStatusEnabled)).1.isEmpty
    · simp [load, roleDALQuery, hq, hroles, hbuf]
    · simp [load, roleDALQuery, hq, hroles, hbuf, hw, hb]

/-- **C7.** If the resource query fails for enabled role `a` while it
succeeds for enabled role `b`, the buffer contains no line for `a`, all of
`b`'s lines, the failure is logged per-role, and the pass is not aborted on
account of the failure: absent publish errors, `load` still returns `nil`. -/
theorem load_partial_failure_isolation (env : LoadEnv) (enf : Option Enforcer) (fs : FS)
    (a b : Role) (rsb : List MenuResource)
    (ha : a ∈ roleDALQueryData env.store RoleStatusEnabled)
    (hb : b ∈ roleDALQueryData env.store RoleStatusEnabled)
    (haerr : queryRoleResources env.store a.id = Except.error ())
    (hbok : queryRoleResources env.store b.id = Except.ok rsb) :
    (∀ line ∈ (compileBuffer env.store (roleDALQueryData env.store RoleStatusEnabled)).1,
        line.roleID ≠ a.id)
      ∧ (∀ res ∈ rsb,
          PolicyLine.mk b.id res.path res.method
            ∈ (compileBuffer env.store (roleDALQueryData env.store RoleStatusEnabled)).1)
      ∧ LogEvent.roleQueryError a.id
          ∈ (compileBuffer env.store (roleDALQueryData env.store RoleStatusEnabled)).2
      ∧ (env.store.roleQueryErr = false → env.writeErr = false → env.buildErr = false →
          (load env enf fs).ok = true) := by
  refine ⟨?_, ?_, ?_, ?_⟩
  · intro line hline hc
    rcases (mem_compileBuffer _ _ line).mp hline with ⟨r', _, rs', hok', hl⟩
    have hid : r'.id = a.id := by
      rw [← roleID_of_mem_roleLines r'.id rs' line hl, hc]
    rw [hid, haerr] at hok'
    cases hok'
  · intro res hres
    exact (mem_compileBuffer _ _ _).mpr
      ⟨b, hb, rsb, hbok, (mem_roleLines _ _ _).mpr ⟨res, hres, rfl⟩⟩
  · exact (mem_compileBuffer_logs _ _ _).mpr ⟨a, ha, rfl, haerr⟩
  · exact fun hq hw hbuild => load_ok_of_no_errors env enf fs hq hw hbuild

/-- Store where role `ra`'s menu query fails while role `rb` aggregates
normally. -/
def c7Store : Store :=
  Store.mk [Role.mk "ra" "enabled", Role.mk "rb" "enabled"]
    [Menu.mk "mb" "" "enabled"]
    [RoleMenu.mk "rb" "mb"]
    [MenuResource.mk "resb" "mb" "GET" "/b"]
    false ["ra"] []

/-- Load environment over `c7Store` with no publish errors. -/
def c7Env : LoadEnv := LoadEnv.mk c7Store false false

/-- Witness for C7: at `c7Env`, role `ra` fails and contributes nothing,
role `rb` contributes its line, the failure is logged, the pass succeeds. -/
theorem load_partial_failure_isolation_witness :
    (Role.mk "ra" "enabled" ∈ roleDALQueryData c7Env.store RoleStatusEnabled
        ∧ Role.mk "rb" "enabled" ∈ roleDALQueryData c7Env.store RoleStatusEnabled
        ∧ queryRoleResources c7Env.store "ra" = Except.error ()
        ∧ queryRoleResources c7Env.store "rb" =
            Except.ok [MenuResource.mk "resb" "mb" "GET" "/b"])
      ∧ ((∀ line ∈ (compileBuffer c7Env.store
              (roleDALQueryData c7Env.store RoleStatusEnabled)).1, line.roleID ≠ "ra")
        ∧ (∀ res ∈ [MenuResource.mk "resb" "mb" "GET" "/b"],
            PolicyLine.mk "rb" res.path res.method
              ∈ (compileBuffer c7Env.store
                  (roleDALQueryData c7Env.store RoleStatusEnabled)).1)
        ∧ LogEvent.roleQueryError "ra"
            ∈ (compileBuffer c7Env.store (roleDALQueryData c7Env.store RoleStatusEnabled)).2
        ∧ (c7Env.store.roleQueryErr = false → c7Env.writeErr = false →
            c7Env.buildErr = false → (load c7Env oldEnf oldFS).ok = true)) :=
  ⟨⟨by decide, by decide, by rfl, by rfl⟩,
    load_partial_failure_isolation c7Env oldEnf oldFS
      (Role.mk "ra" "enabled") (Role.mk "rb" "enabled")
      [MenuResource.mk "resb" "mb" "GET" "/b"]
      (by decide) (by decide) (by rfl) (by rfl)⟩

theorem load_not_stored_keeps_enforcer (env : LoadEnv) (enf : Option Enforcer) (fs : FS)
    (h : (load env enf fs).stored = false) :
    (load env enf fs).enforcer = enf := by
  by_cases hrq : env.store.roleQueryErr
  · simp [load, roleDALQuery, hrq]
  · by_cases hroles : (roleDALQueryData env.store RoleStatusEnabled).isEmpty
    · simp [load, roleDALQuery, hrq, hroles]
    · by_cases hbuf :
          (compileBuffer env.store (roleDALQueryData env.store RoleStatusEnabled)).1.isEmpty
      · simp [load, roleDALQuery, hrq, hroles, hbuf]
      · by_cases hw : env.writeErr
        · simp [load, roleDALQuery, hrq, hroles, hbuf, hw]
        · by_cases hb : env.buildErr
          · simp [load, roleDALQuery, hrq, hroles, hbuf, hw, hb]
          · exfalso
            have : (load env enf fs).stored = true := by
              simp [load, roleDALQuery, hrq, hroles, hbuf, hw, hb]
            rw [this] at h
            cases h

theorem load_stored_text (env : LoadEnv) (enf : Option Enforcer) (fs : FS)
    (h : (load env enf fs).stored = true) :
    (load env enf fs).enforcer =
      some (Enforcer.mk (renderBuffer
        (compileBuffer env.store (roleDALQueryData env.store RoleStatusEnabled)).1)) := by
  by_cases hrq : env.store.roleQueryErr
  · exfalso
    have : (load env enf fs).stored = false := by simp [load, roleDALQuery, hrq]
    rw [this] at h
    cases h
  · by_cases hroles : (roleDALQueryData env.store RoleStatusEnabled).isEmpty
    · exfalso
      have : (load env enf fs).stored = false := by simp [load, roleDALQuery, hrq, hroles]
      rw [this] at h
      cases h
    · by_cases hbuf :
          (compileBuffer env.store (roleDALQueryData env.store RoleStatusEnabled)).1.isEmpty
      · exfalso
        have : (load env enf fs).stored = false := by
          simp [load, roleDALQuery, hrq, hroles, hbuf]
        rw [this] at h
        cases h
      · by_cases hw : env.writeErr
        · exfalso
          have : (load env enf fs).stored = false := by
            simp [load, roleDALQuery, hrq, hroles, hbuf, hw]
          rw [this] at h
          cases h
        · by_cases hb : env.buildErr
          · exfalso
            have : (load env enf fs).stored = false := by
              simp [load, roleDALQuery, hrq, hroles, hbuf, hw, hb]
            rw [this] at h
            cases h
          · simp [load, roleDALQuery, hrq, hroles, hbuf, hw, hb, renderBuffer]

/-- The values a concurrent reader's single atomic `Load` of the holder can
observe while one `load` pass runs: the holder starts at the previous
generation and is written at most once, by the single `Store` call performed
after the new enforcer is fully built. -/
def observableEnforcers (env : LoadEnv) (enf : Option Enforcer) (fs : FS) :
    List (Option Enforcer) :=
  if (load env enf fs).stored then [enf, (load env enf fs).enforcer] else [enf]

/-- **C9.** A reader concurrent with a reload observes either the complete
previous generation or the complete new generation — the latter always built
from the entire compiled buffer, never a partially constructed one. -/
theorem reader_observes_complete_generation (env : LoadEnv) (enf : Option Enforcer)
    (fs : FS) (v : Option Enforcer) (hv : v ∈ observableEnforcers env enf fs) :
    v = enf
      ∨ v = some (Enforcer.mk (renderBuffer
          (compileBuffer env.store (roleDALQueryData env.store RoleStatusEnabled)).1)) := by
  unfold observableEnforcers at hv
  by_cases hs : (load env enf fs).stored
  · rw [if_pos hs] at hv
    rcases List.mem_cons.mp hv with rfl | hv'
    · exact Or.inl rfl
    · rcases List.mem_cons.mp hv' with rfl | hv''
      · exact Or.inr (load_stored_text env enf fs hs)
      · exact absurd hv'' (List.not_mem_nil v)
  · rw [if_neg hs] at hv
    rcases List.mem_cons.mp hv with rfl | hv'
    · exact Or.inl rfl
    · exact absurd hv' (List.not_mem_nil v)

/-- Load environment over `c2Store` with no publish errors: the pass stores
a new generation. -/
def c9Env : LoadEnv := LoadEnv.mk c2Store false false

/-- Witness for C9: the newly stored generation is observable and is the
complete new generation. -/
theorem reader_observes_complete_generation_witness :
    ((load c9Env oldEnf oldFS).enforcer ∈ observableEnforcers c9Env oldEnf oldFS)
      ∧ ((load c9Env oldEnf oldFS).enforcer = oldEnf
        ∨ (load c9Env oldEnf oldFS).enforcer = some (Enforcer.mk (renderBuffer
            (compileBuffer c9Env.store (roleDALQueryData c9Env.store RoleStatusEnabled)).1))) :=
  ⟨by decide,
    reader_observes_complete_generation c9Env oldEnf oldFS
      (load c9Env oldEnf oldFS).enforcer (by decide)⟩

theorem autoLoadTick_parseFail (cache : CacheGetResult) (store : Store) (w b : Bool)
    (val : String) (st : AutoState) (hc : cache = CacheGetResult.found val)
    (hp : parseGoInt64 val = none) :
    autoLoadTick (TickEnv.mk cache store w b) st =
      TickResult.mk st [LogEvent.parseCacheError val] false false [] := by
  subst hc
  simp [autoLoadTick, hp]

theorem autoLoadTick_stale (store : Store) (w b : Bool) (val : String) (st : AutoState)
    (updated : Int) (hp : parseGoInt64 val = some updated)
    (hlt : ¬ st.lastUpdated < updated) :
    autoLoadTick (TickEnv.mk (CacheGetResult.found val) store w b) st =
      TickResult.mk st [] false false [] := by
  simp [autoLoadTick, hp, hlt]

theorem autoLoadTick_reload_ok (store : Store) (w b : Bool) (val : String) (st : AutoState)
    (updated : Int) (hp : parseGoInt64 val = some updated)
    (hlt : st.lastUpdated < updated)
    (hok : (load (LoadEnv.mk store w b) st.enforcer st.fs).ok = true) :
    autoLoadTick (TickEnv.mk (CacheGetResult.found val) store w b) st =
      TickResult.mk
        (AutoState.mk updated (load (LoadEnv.mk store w b) st.enforcer st.fs).enforcer
          (load (LoadEnv.mk store w b) st.enforcer st.fs).fs)
        (load (LoadEnv.mk store w b) st.enforcer st.fs).logs
        true (load (LoadEnv.mk store w b) st.enforcer st.fs).stored [] := by
  simp [autoLoadTick, hp, hlt, hok]

theorem autoLoadTick_reload_fail (store : Store) (w b : Bool) (val : String)
    (st : AutoState) (updated : Int) (hp : parseGoInt64 val = some updated)
    (hlt : st.lastUpdated < updated)
    (hok : (load (LoadEnv.mk store w b) st.enforcer st.fs).ok = false) :
    autoLoadTick (TickEnv.mk (CacheGetResult.found val) store w b) st =
      TickResult.mk
        (AutoState.mk st.lastUpdated
          (load (LoadEnv.mk store w b) st.enforcer st.fs).enforcer
          (load (LoadEnv.mk store w b) st.enforcer st.fs).fs)
        ((load (LoadEnv.mk store w b) st.enforcer st.fs).logs ++ [LogEvent.loadError])
        true (load (LoadEnv.mk store w b) st.enforcer st.fs).stored [] := by
  simp [autoLoadTick, hp, hlt, hok]

theorem autoLoadTick_cacheWrites (env : TickEnv) (st : AutoState) :
    (autoLoadTick env st).cacheWrites = [] := by
  obtain ⟨cache, store, w, b⟩ := env
  cases cache with
  | err => rfl
  | missing => rfl
  | found val =>
    cases hp : parseGoInt64 val with
    | none => rw [autoLoadTick_parseFail _ store w b val st rfl hp]
    | some updated =>
      by_cases hlt : st.lastUpdated < updated
      · by_cases hok : (load (LoadEnv.mk store w b) st.enforcer st.fs).ok = true
        · rw [autoLoadTick_reload_ok store w b val st updated hp hlt hok]
        · have hokf : (load (LoadEnv.mk store w b) st.enforcer st.fs).ok = false := by
            cases hcase : (load (LoadEnv.mk store w b) st.enforcer st.fs).ok
            · rfl
            · exact absurd hcase hok
          rw [autoLoadTick_reload_fail store w b val st updated hp hlt hokf]
      · rw [autoLoadTick_stale store w b val st updated hp hlt]

theorem autoLoadTick_not_stored (env : TickEnv) (st : AutoState)
    (h : (autoLoadTick env st).stored = false) :
    (autoLoadTick env st).state.enforcer = st.enforcer := by
  obtain ⟨cache, store, w, b⟩ := env
  cases cache with
  | err => rfl
  | missing => rfl
  | found val =>
    cases hp : parseGoInt64 val with
    | none => rw [autoLoadTick_parseFail _ store w b val st rfl hp]
    | some updated =>
      by_cases hlt : st.lastUpdated < updated
      · by_cases hok : (load (LoadEnv.mk store w b) st.enforcer st.fs).ok = true
        · rw [autoLoadTick_reload_ok store w b val st updated hp hlt hok] at h ⊢
          exact load_not_stored_keeps_enforcer _ _ _ h
        · have hokf : (load (LoadEnv.mk store w b) st.enforcer st.fs).ok = false := by
            cases hcase : (load (LoadEnv.mk store w b) st.enforcer st.fs).ok
            · rfl
            · exact absurd hcase hok
          rw [autoLoadTick_reload_fail store w b val st updated hp hlt hokf] at h ⊢
          exact load_not_stored_keeps_enforcer _ _ _ h
      · rw [autoLoadTick_stale store w b val st updated hp hlt]

/-- **C8.** A tick whose cache read errs, finds no key, or finds an
unparsable value performs no reload and changes no state, and the loop never
issues a write or delete against the change-signal key, so a pending change
stays observable for the next tick. -/
theorem autoLoad_skip_tick (env : TickEnv) (st : AutoState)
    (h : env.cache = CacheGetResult.err ∨ env.cache = CacheGetResult.missing
      ∨ ∃ v, env.cache = CacheGetResult.found v ∧ parseGoInt64 v = none) :
    (autoLoadTick env st).state = st
      ∧ (autoLoadTick env st).reloaded = false
      ∧ (∀ env' st', (autoLoadTick env' st').cacheWrites = []) := by
  refine ⟨?_, ?_, fun env' st' => autoLoadTick_cacheWrites env' st'⟩ <;>
    obtain ⟨cache, store, w, b⟩ := env <;>
    rcases h with hc | hc | ⟨v, hc, hp⟩ <;>
    simp only [] at hc <;>
    subst hc
  · rfl
  · rfl
  · rw [autoLoadTick_parseFail _ store w b v st rfl hp]
  · rfl
  · rfl
  · rw [autoLoadTick_parseFail _ store w b v st rfl hp]

/-- Initial reload-loop state with a pending previous generation. -/
def c4St : AutoState := AutoState.mk 0 oldEnf oldFS

/-- Tick over `c5Store` (enabled role, no menus): the signal reads 5, the
reload runs, compiles an empty buffer and succeeds without storing. -/
def c4Env : TickEnv := TickEnv.mk (CacheGetResult.found "5") c5Store false false

/-- **C4 counterexample.** After this tick, `lastUpdated` advanced from 0 to
the signal value 5, yet the pass stored no new enforcer generation — the
empty-buffer pass returns `nil` and `load`'s success alone advances the
timestamp, contradicting "advanced only after a successful
compile-and-swap". -/
theorem autoLoad_lastUpdated_counterexample :
    (autoLoadTick c4Env c4St).state.lastUpdated = 5
      ∧ c4St.lastUpdated = 0
      ∧ (autoLoadTick c4Env c4St).reloaded = true
      ∧ (autoLoadTick c4Env c4St).stored = false
      ∧ (autoLoadTick c4Env c4St).state.enforcer = c4St.enforcer :=
  ⟨by decide, by decide, by decide, by decide, by decide⟩

/-- **C4 amended.** `lastUpdated` is advanced to the signal's parsed value
exactly when the tick saw a strictly newer signal and the reload pass
completed without error; a failing pass, or a tick that does not reload,
leaves it unchanged.  A successful pass need not have stored a new enforcer
generation (an empty role set or empty buffer also returns success). -/
theorem autoLoad_lastUpdated_spec (env : TickEnv) (st : AutoState) :
    ((autoLoadTick env st).state.lastUpdated ≠ st.lastUpdated →
      ∃ val updated, env.cache = CacheGetResult.found val
        ∧ parseGoInt64 val = some updated
        ∧ st.lastUpdated < updated
        ∧ (autoLoadTick env st).state.lastUpdated = updated
        ∧ (autoLoadTick env st).reloaded = true
        ∧ (load (LoadEnv.mk env.store env.writeErr env.buildErr) st.enforcer st.fs).ok
            = true)
    ∧ ((load (LoadEnv.mk env.store env.writeErr env.buildErr) st.enforcer st.fs).ok
          = false →
        (autoLoadTick env st).state.lastUpdated = st.lastUpdated) := by
  obtain ⟨cache, store, w, b⟩ := env
  cases cache with
  | err => exact ⟨fun h => absurd rfl h, fun _ => rfl⟩
  | missing => exact ⟨fun h => absurd rfl h, fun _ => rfl⟩
  | found val =>
    cases hp : parseGoInt64 val with
    | none =>
      rw [autoLoadTick_parseFail _ store w b val st rfl hp]
      exact ⟨fun h => absurd rfl h, fun _ => rfl⟩
    | some updated =>
      by_cases hlt : st.lastUpdated < updated
      · by_cases hok : (load (LoadEnv.mk store w b) st.enforcer st.fs).ok = true
        · rw [autoLoadTick_reload_ok store w b val st updated hp hlt hok]
          constructor
          · intro h
            exact ⟨val, updated, rfl, hp, hlt, rfl, rfl, hok⟩
          · intro hok'
            rw [hok] at hok'
            cases hok'
        · have hokf : (load (LoadEnv.mk store w b) st.enforcer st.fs).ok = false := by
            cases hcase : (load (LoadEnv.mk store w b) st.enforcer st.fs).ok
            · rfl
            · exact absurd hcase hok
          rw [autoLoadTick_reload_fail store w b val st updated hp hlt hokf]
          exact ⟨fun h => absurd rfl h, fun _ => rfl⟩
      · rw [autoLoadTick_stale store w b val st updated hp hlt]
        exact ⟨fun h => absurd rfl h, fun _ => rfl⟩

/-- Witness for the amended C4: at `c4Env`/`c4St` the timestamp advanced,
and the theorem locates the successful (storeless) pass behind it. -/
theorem autoLoad_lastUpdated_spec_witness :
    (autoLoadTick c4Env c4St).state.lastUpdated ≠ c4St.lastUpdated
      ∧ ∃ val updated, c4Env.cache = CacheGetResult.found val
          ∧ parseGoInt64 val = some updated
          ∧ c4St.lastUpdated < updated
          ∧ (autoLoadTick c4Env c4St).state.lastUpdated = updated
          ∧ (autoLoadTick c4Env c4St).reloaded = true
          ∧ (load (LoadEnv.mk c4Env.store c4Env.writeErr c4Env.buildErr)
              c4St.enforcer c4St.fs).ok = true :=
  ⟨by decide, (autoLoad_lastUpdated_spec c4Env c4St).1 (by decide)⟩

/-- Skip-tick environment for the C8 witness: the cache read fails. -/
def c8Env : TickEnv := TickEnv.mk CacheGetResult.err c5Store false false

/-- Witness for C8: the erring tick leaves the state untouched, reloads
nothing and writes nothing to the cache. -/
theorem autoLoad_skip_tick_witness :
    (c8Env.cache = CacheGetResult.err ∨ c8Env.cache = CacheGetResult.missing
        ∨ ∃ v, c8Env.cache = CacheGetResult.found v ∧ parseGoInt64 v = none)
      ∧ ((autoLoadTick c8Env c4St).state = c4St
        ∧ (autoLoadTick c8Env c4St).reloaded = false
        ∧ (∀ env' st', (autoLoadTick env' st').cacheWrites = [])) :=
  ⟨Or.inl rfl, autoLoad_skip_tick c8Env c4St (Or.inl rfl)⟩

theorem runTicks_cons (st : AutoState) (e : TickEnv) (rest : List TickEnv) :
    runTicks st (e :: rest) =
      ((runTicks (autoLoadTick e st).state rest).1,
        (autoLoadTick e st).stored || (runTicks (autoLoadTick e st).state rest).2) := rfl

theorem runTicks_no_store_keeps (envs : List TickEnv) (st : AutoState)
    (h : (runTicks st envs).2 = false) :
    (runTicks st envs).1.enforcer = st.enforcer := by
  induction envs generalizing st with
  | nil => rfl
  | cons e rest ih =>
    rw [runTicks_cons] at h ⊢
    have h2 : (autoLoadTick e st).stored = false
        ∧ (runTicks (autoLoadTick e st).state rest).2 = false := by
      constructor
      · cases hcase : (autoLoadTick e st).stored
        · rfl
        · rw [hcase] at h
          simp at h
      · cases hcase : (runTicks (autoLoadTick e st).state rest).2
        · rfl
        · rw [hcase] at h
          simp at h
    rw [ih (autoLoadTick e st).state h2.2, autoLoadTick_not_stored e st h2.1]

/-- **C3.** Before the first pass that stores an enforcer generation,
`GetEnforcer` returns `nil`; and for a request the middleware does not skip,
a `nil` enforcer makes the casbin middleware answer the permission-denied
error rather than letting the request through. -/
theorem fail_closed_before_first_store (envs : List TickEnv) (st : AutoState)
    (h0 : st.enforcer = none) (hns : (runTicks st envs).2 = false)
    (cfg : CasbinMwConfig) (req : Request)
    (hallow : allowedPathPrefixesFn req.path cfg.allowedPathPrefixes = true)
    (hskip : skippedPathPrefixesFn req.path cfg.skippedPathPrefixes = false)
    (hskipper : cfg.skip = false) :
    GetEnforcer (runTicks st envs).1.enforcer = none
      ∧ CasbinWithConfig cfg (GetEnforcer (runTicks st envs).1.enforcer) req
          = MwOutcome.deniedError := by
  have henf : (runTicks st envs).1.enforcer = none := by
    rw [runTicks_no_store_keeps envs st hns, h0]
  rw [GetEnforcer_eq, henf]
  exact ⟨rfl, by simp [CasbinWithConfig, hallow, hskip, hskipper]⟩

/-- Reload-loop state before any successful store. -/
def c3St : AutoState := AutoState.mk 0 none (FS.mk none none)

/-- Two ticks, neither of which stores: a failing cache read, then a reload
over `c5Store` that succeeds with an empty buffer. -/
def c3Envs : List TickEnv :=
  [TickEnv.mk CacheGetResult.err c5Store false false,
    TickEnv.mk (CacheGetResult.found "7") c5Store false false]

/-- Middleware configuration with no skip conditions and one subject. -/
def c3Cfg : CasbinMwConfig := CasbinMwConfig.mk [] [] false ["admin"]

/-- A request the middleware does not skip. -/
def c3Req : Request := Request.mk "/api/v1/users" "GET"

/-- Witness for C3: after the two storeless ticks `GetEnforcer` is still
`nil` and the middleware denies the request. -/
theorem fail_closed_before_first_store_witness :
    (c3St.enforcer = none
        ∧ (runTicks c3St c3Envs).2 = false
        ∧ allowedPathPrefixesFn c3Req.path c3Cfg.allowedPathPrefixes = true
        ∧ skippedPathPrefixesFn c3Req.path c3Cfg.skippedPathPrefixes = false
        ∧ c3Cfg.skip = false)
      ∧ (GetEnforcer (runTicks c3St c3Envs).1.enforcer = none
        ∧ CasbinWithConfig c3Cfg (GetEnforcer (runTicks c3St c3Envs).1.enforcer) c3Req
            = MwOutcome.deniedError) :=
  ⟨⟨rfl, by decide, by decide, by decide, rfl⟩,
    fail_closed_before_first_store c3Envs c3St rfl (by decide) c3Cfg c3Req
      (by decide) (by decide) rfl⟩
